import Mathlib

/-!
A shallow embedding of the `TextTable` class of `lib.py` (ConsoleTable).

Modelling conventions:
* Python strings are embedded as `List Char` (abbreviated `Str`); lengths,
  slices and concatenation are the list operations.
* Python values stored in rows are modelled by `PyVal` (ints and strings),
  with `pyValStr` playing the role of `str(...)`.
* Python exceptions are modelled by `PyErr`; fallible operations return
  `Except PyErr _`.  `ValueError`, `TypeError` and `KeyError` are the kinds
  the embedded code can raise.
* `max_width` is modelled as `Option Nat` (the repository only ever uses
  `None` or positive widths); Python truthiness of `max_width` is `truthy`.
* Out-of-range list indexing (`IndexError` in Python) is modelled with
  `getD` defaults; all theorems below only exercise in-range accesses,
  matching the repository's use.
-/

namespace ConsoleTable

abbrev Str := List Char

/-- Python exception kinds raised by the embedded code. -/
inductive PyErr where
  | valueError
  | typeError
  | keyError
deriving DecidableEq, Repr

/-- Python values appearing as row entries and as sort keys: ints and strings. -/
inductive PyVal where
  | int (n : Int)
  | str (s : Str)
deriving DecidableEq, Repr

/-- Python `str(...)` on the modelled values (`str` of an int is its decimal
representation, identical to Lean's `toString` on `Int`). -/
def pyValStr : PyVal → Str
  | .int n => (toString n).toList
  | .str s => s

/-- Python truthiness of `max_width`: `None` and `0` are falsy. -/
def truthy : Option Nat → Bool
  | none => false
  | some n => n != 0

/-- A column definition, as built by `TextTable.add_column`:
`{"header": ..., "align": ..., "max_width": ..., "overflow": ...}`.
`align` and `overflow` are the Python string tags. -/
structure Column where
  header : Str
  align : String
  max_width : Option Nat
  overflow : String
deriving DecidableEq, Repr

instance : Inhabited Column := ⟨⟨[], "left", none, "truncate"⟩⟩

/-- The state of a `TextTable` object: columns, rows (each a list of cell
strings), the `horizontal_lines` flag, the glyph dictionary `style` and the
raw `style_name`. -/
structure Table where
  columns : List Column
  rows : List (List Str)
  horizontal_lines : Bool
  style : List (String × Str)
  style_name : String
deriving DecidableEq, Repr

/-- The `STYLES["markdown"]` glyph dictionary. -/
def markdownStyle : List (String × Str) :=
  [("h_line", ['-']), ("v_line", ['|']), ("corner", ['|']), ("intersect", ['|'])]

/-- The `STYLES["box"]` glyph dictionary. -/
def boxStyle : List (String × Str) :=
  [("h_line", ['─']), ("v_line", ['│']),
   ("top_left", ['┌']), ("top_right", ['┐']), ("top_intersect", ['┬']),
   ("bot_left", ['└']), ("bot_right", ['┘']), ("bot_intersect", ['┴']),
   ("mid_left", ['├']), ("mid_right", ['┤']), ("mid_intersect", ['┼']),
   ("corner", ['+']), ("intersect", ['┼'])]

/-- The `STYLES` dictionary of `TextTable`. -/
def STYLES : List (String × List (String × Str)) :=
  [("markdown", markdownStyle), ("box", boxStyle)]

/-- `TextTable.__init__(horizontal_lines, style)`: the glyph set is
`STYLES.get(style, STYLES["markdown"])` while `style_name` keeps the raw
argument. -/
def TextTable (horizontal_lines : Bool) (style : String) : Table :=
  { columns := []
    rows := []
    horizontal_lines := horizontal_lines
    style := (STYLES.lookup style).getD markdownStyle
    style_name := style }

/-- `TextTable.add_column(header_name, align, max_width, overflow)`. -/
def add_column (t : Table) (header_name : Str) (align : String)
    (max_width : Option Nat) (overflow : String) : Table :=
  { t with columns := t.columns ++ [⟨header_name, align, max_width, overflow⟩] }

/-- `TextTable.add_row(*args)`: raises `ValueError` when the argument count
differs from the column count (before any mutation), otherwise appends the
`str(...)` images of the arguments as one row.  The returned pair is the
table state after the call together with the raised exception, if any. -/
def add_row (t : Table) (args : List PyVal) : Table × Option PyErr :=
  if args.length ≠ t.columns.length then (t, some .valueError)
  else ({ t with rows := t.rows ++ [args.map pyValStr] }, none)

/-- `TextTable.add_rows(data_list)`: applies `add_row` to each element in
order, stopping at (and propagating) the first raised exception; rows
inserted before the failure stay inserted. -/
def add_rows (t : Table) : List (List PyVal) → Table × Option PyErr
  | [] => (t, none)
  | r :: rs =>
    match add_row t r with
    | (t', none) => add_rows t' rs
    | (t', some e) => (t', some e)

/-- Python `<` on two strings: lexicographic comparison by code point. -/
def strLt : Str → Str → Bool
  | [], [] => false
  | [], _ :: _ => true
  | _ :: _, [] => false
  | a :: as, b :: bs => if a < b then true else if b < a then false else strLt as bs

/-- Python `<` on the modelled values: defined on same-kind operands, and a
`TypeError` (as in Python 3) when an int is compared with a string. -/
def pyLt : PyVal → PyVal → Except PyErr Bool
  | .int a, .int b => .ok (decide (a < b))
  | .str a, .str b => .ok (strLt a b)
  | _, _ => .error .typeError

/-- The strict order on decorated rows used by the sort: Python `a < b` on
the keys evaluating (without exception) to `True`. -/
def keyRel {α : Type} (p q : α × PyVal) : Prop :=
  pyLt p.2 q.2 = Except.ok true

/-- The sort key of one row, as built by `sort_func` inside
`TextTable.sort_by`: the raw string cell when no key function is given;
otherwise `key(value)`, falling back to the raw string cell when (and only
when) the key function raises `ValueError` — any other exception
propagates, exactly as the `except ValueError` clause does. -/
def sort_key (col_idx : Nat) (key : Option (Str → Except PyErr PyVal))
    (row : List Str) : Except PyErr PyVal :=
  let val := row.getD col_idx []
  match key with
  | none => .ok (.str val)
  | some f =>
    match f val with
    | .ok v => .ok v
    | .error .valueError => .ok (.str val)
    | .error e => .error e

/-- Key decoration pass of `list.sort(key=...)`: the sort key is computed
for every row, in list order, before any reordering; the first raised
exception propagates. -/
def computeKeysE (col_idx : Nat) (key : Option (Str → Except PyErr PyVal)) :
    List (List Str) → Except PyErr (List (List Str × PyVal))
  | [] => .ok []
  | r :: rs =>
    match sort_key col_idx key r with
    | .error e => .error e
    | .ok k =>
      match computeKeysE col_idx key rs with
      | .error e => .error e
      | .ok rest => .ok ((r, k) :: rest)

/-- Ordered insertion of a decorated row into a sorted decorated list,
propagating comparison exceptions. -/
def insertE {α : Type} (p : α × PyVal) :
    List (α × PyVal) → Except PyErr (List (α × PyVal))
  | [] => .ok [p]
  | q :: l =>
    match pyLt p.2 q.2 with
    | .error e => .error e
    | .ok true => .ok (p :: q :: l)
    | .ok false =>
      match insertE p l with
      | .error e => .error e
      | .ok r => .ok (q :: r)

/-- Comparison sort of the decorated rows.  CPython's `list.sort` is a
stable comparison sort (Timsort) keyed by `<` on the computed keys; it is
modelled here by insertion sort, which agrees with any comparison sort
whenever `<` is a strict total order on the keys involved — the regime of
every theorem below (pairwise-distinct, pairwise-comparable keys).
Comparison exceptions (`TypeError` on mixed key kinds) propagate, as in
Python. -/
def sortE {α : Type} : List (α × PyVal) → Except PyErr (List (α × PyVal))
  | [] => .ok []
  | p :: l =>
    match sortE l with
    | .error e => .error e
    | .ok s => insertE p s

/-- `TextTable.sort_by(header_name, key, reverse)`: locates the first column
whose header equals `header_name` (raising `ValueError` when absent),
decorates every row with its sort key, sorts, and stores the reordered
rows.  As in CPython's `list.sort`, `reverse=True` is realised by reversing
the list before and after the ascending sort. -/
def sort_by (t : Table) (header_name : Str)
    (key : Option (Str → Except PyErr PyVal)) (reverse : Bool) :
    Except PyErr Table :=
  match t.columns.findIdx? (fun c => c.header == header_name) with
  | none => .error .valueError
  | some col_idx =>
    match computeKeysE col_idx key t.rows with
    | .error e => .error e
    | .ok dec =>
      match sortE (if reverse then dec.reverse else dec) with
      | .error e => .error e
      | .ok sorted =>
        .ok { t with
          rows := (if reverse then sorted.reverse else sorted).map (fun p => p.1) }

/-- Decimal digit value of a character, else `none`. -/
def digitVal (c : Char) : Option Nat :=
  if '0' ≤ c ∧ c ≤ '9' then some (c.toNat - '0'.toNat) else none

/-- Parse a nonempty string of decimal digits, else `none`. -/
def parseDigits : Str → Option Nat
  | [] => none
  | [c] => digitVal c
  | c :: cs => do
    let d ← digitVal c
    let rest ← parseDigits cs
    pure (d * 10 ^ cs.length + rest)

/-- A concrete key function modelling Python's `int(...)` on simple decimal
strings: the parsed integer, or `ValueError` for non-numeric text.  Used
only as an example key in concrete instances. -/
def pyIntKey (s : Str) : Except PyErr PyVal :=
  match parseDigits s with
  | some n => .ok (.int (n : Int))
  | none => .error .valueError

/-- Python slice `s[:n]` for an arbitrary (possibly negative) `n`:
a nonnegative `n` keeps the first `n` characters, a negative `n` keeps all
but the last `-n` characters (clamped at the empty string). -/
def pyTake (s : Str) (n : Int) : Str :=
  if 0 ≤ n then s.take n.toNat else s.take (s.length - n.natAbs)

/-- Total length of a list of chunks. -/
def sumLen (l : List Str) : Nat := (l.map List.length).sum

/-- `chunk.strip() == ""` after whitespace munging: all characters are
spaces (true for the empty chunk as well). -/
def isBlank (c : Str) : Bool := c.all (fun ch => ch == ' ')

/-- `textwrap`'s `_munge_whitespace`: the whitespace characters
tab/newline/vertical-tab/form-feed/carriage-return each become a space.
(The preceding `expand_tabs` tab-stop expansion is modelled as the plain
tab-to-space translation; the table cells this repository wraps contain no
tabs.) -/
def munge (s : Str) : Str :=
  s.map (fun c =>
    if c = '\t' ∨ c = '\n' ∨ c = Char.ofNat 11 ∨ c = Char.ofNat 12 ∨ c = '\r'
    then ' ' else c)

/-- `textwrap`'s `_split`: the munged text is cut into maximal runs of
spaces and of non-spaces, with no empty chunks.  (This models the default
`wordsep_re` splitting for text without hyphens, the content this
repository renders; `break_on_hyphens` additionally splits hyphenated
compounds.) -/
def splitChunks : Str → List Str
  | [] => []
  | c :: cs =>
    match splitChunks cs with
    | [] => [[c]]
    | [] :: rest => [c] :: [] :: rest
    | (d :: ds) :: rest =>
      if ((c == ' ') == (d == ' ')) then (c :: d :: ds) :: rest
      else [c] :: (d :: ds) :: rest

/-- The inner accumulation loop of `_wrap_chunks`: starting from a current
length, chunks are moved onto the current line while they fit within
`width`; returns the taken chunks, the resulting length and the remaining
chunks. -/
def takeLine (width : Nat) : Nat → List Str → List Str × Nat × List Str
  | curLen, [] => ([], curLen, [])
  | curLen, c :: cs =>
    if curLen + c.length ≤ width then
      let r := takeLine width (curLen + c.length) cs
      (c :: r.1, r.2.1, r.2.2)
    else ([], curLen, c :: cs)

/-- `textwrap`'s `_handle_long_word` (with the default
`break_long_words=True`): when the next chunk is longer than `width`, its
leading `space_left` characters (`1` if `width < 1`, else `width` minus the
current line length) are moved onto the current line and the rest stays as
the new head chunk.  (`break_on_hyphens` re-splitting applies only to
hyphenated chunks, not modelled here.) -/
def longWordAdjust (width : Nat) (cur0 : List Str) (len0 : Nat) :
    List Str → List Str × List Str
  | [] => (cur0, [])
  | c :: cs =>
    if width < c.length then
      let spaceLeft := if width < 1 then 1 else width - len0
      (cur0 ++ [c.take spaceLeft], c.drop spaceLeft :: cs)
    else (cur0, c :: cs)

/-- The `drop_whitespace` clean-up at the end of a line: a trailing
all-whitespace chunk is removed. -/
def dropTrailingBlank (cur : List Str) : List Str :=
  match cur.getLast? with
  | some lc => if isBlank lc then cur.dropLast else cur
  | none => cur

/-- The body of one `while chunks` iteration of `_wrap_chunks` after the
leading-whitespace drop: greedily fill the line, break a long word, drop
trailing whitespace, and emit the joined line when nonempty.  Returns the
emitted line (if any) and the remaining chunks. -/
def wrapLine (width : Nat) (chunks1 : List Str) : Option Str × List Str :=
  let r := takeLine width 0 chunks1
  let s := longWordAdjust width r.1 r.2.1 r.2.2
  let cur2 := dropTrailingBlank s.1
  if cur2.isEmpty then (none, s.2) else (some cur2.flatten, s.2)

/-- One iteration of the `while chunks` loop of `_wrap_chunks`: drop a
leading whitespace chunk when a line was already emitted, then run the
line-building body. -/
def wrapStep (width : Nat) (isFirst : Bool) (chunks : List Str) :
    Option Str × List Str :=
  wrapLine width
    (match chunks with
     | c0 :: rest0 => if isFirst = false ∧ isBlank c0 then rest0 else chunks
     | [] => [])

/-- The `while chunks` loop of `_wrap_chunks`, iterated on a fuel bound.
Every iteration of CPython's loop removes at least one chunk or shortens
the head chunk, so `sumLen chunks + chunks.length` iterations always
suffice; `pyWrap` supplies that bound.  The line-length theorems below hold
for every fuel value. -/
def wrapGo (width : Nat) : Nat → Bool → List Str → List Str
  | 0, _, _ => []
  | _ + 1, _, [] => []
  | fuel + 1, isFirst, c :: cs =>
    match wrapStep width isFirst (c :: cs) with
    | (some line, rest) => line :: wrapGo width fuel false rest
    | (none, rest) => wrapGo width fuel isFirst rest

/-- `textwrap.wrap(text, width)` with the default options, as called by
`TextTable._process_cell` (`width ≥ 1` there; CPython raises `ValueError`
for `width ≤ 0` before the loop). -/
def pyWrap (width : Nat) (text : Str) : List Str :=
  let chunks := splitChunks (munge text)
  wrapGo width (sumLen chunks + chunks.length + 1) true chunks

/-- `TextTable._process_cell(text, col_idx)`: `[text]` when the column's
`max_width` is falsy or the overflow mode is `ignore`; the
ellipsis-truncated single line for `truncate`; the wrapped lines (or
`[""]`) for `wrap`; `[text]` for any other mode string. -/
def process_cell (t : Table) (text : Str) (col_idx : Nat) : List Str :=
  let col := t.columns.getD col_idx default
  let limit := col.max_width
  let mode := col.overflow
  if truthy limit = false ∨ mode = "ignore" then [text]
  else if mode = "truncate" then
    if limit.getD 0 < text.length then
      [pyTake text ((limit.getD 0 : Int) - 3) ++ ['.', '.', '.']]
    else [text]
  else if mode = "wrap" then
    let wrapped := pyWrap (limit.getD 0) text
    if wrapped.isEmpty then [[]] else wrapped
  else [text]

/-- The per-row cell length used by the width computation: the raw cell
length, clamped to `max_width` for a `truncate` column with a truthy
`max_width`. -/
def cellLenClamped (col : Column) (c : Nat) (row : List Str) : Nat :=
  let cl := (row.getD c []).length
  if col.overflow = "truncate" ∧ truthy col.max_width then
    min cl (col.max_width.getD 0)
  else cl

/-- The per-column width loop shared by `TextTable.generate` and
`TextTable._generate_subset`: the header length, overridden by
`max(header_len, limit)` for a `wrap` column with a truthy limit, and
otherwise raised to the running maximum of the (clamped) cell lengths. -/
def colWidth (t : Table) (real_idx : Nat) : Nat :=
  let col := t.columns.getD real_idx default
  let header_len := col.header.length
  if col.overflow = "wrap" ∧ truthy col.max_width then
    max header_len (col.max_width.getD 0)
  else
    t.rows.foldl (fun cur row =>
      let cell_len := cellLenClamped col real_idx row
      if cur < cell_len then cell_len else cur) header_len

/-- The column width as the specification states it (§4.2): for a `wrap`
column with `maxWidth` set, `max(header length, maxWidth)` independent of
the rows; otherwise the maximum of the header length and every row's
(clamped) cell length. -/
def widthSpec (t : Table) (c : Nat) : Nat :=
  let col := t.columns.getD c default
  if col.overflow = "wrap" ∧ truthy col.max_width then
    max col.header.length (col.max_width.getD 0)
  else
    max col.header.length ((t.rows.map (cellLenClamped col c)).foldr max 0)

/-- Python dictionary lookup `d[k]` on a glyph dictionary: the stored
glyph, or a `KeyError` when the key is absent. -/
def dget (d : List (String × Str)) (k : String) : Except PyErr Str :=
  match d.lookup k with
  | some v => .ok v
  | none => .error .keyError

/-- `TextTable._build_separator(col_widths, position)`: for `style_name ==
"markdown"` a dash row between pipes; otherwise the box-style branch picks
the position's left/right/intersection glyph triple (raising `KeyError`
when the glyph dictionary lacks them) and joins `h_line`-runs of width
`w + 2` per column. -/
def build_separator (t : Table) (col_widths : List Nat) (position : String) :
    Except PyErr Str :=
  if t.style_name = "markdown" then
    .ok (['|'] ++ (List.intercalate ['|']
      (col_widths.map (fun w => List.replicate (w + 2) '-'))) ++ ['|'])
  else
    match (if position = "top" then
        match dget t.style "top_left" with
        | .error e => .error e
        | .ok l =>
          match dget t.style "top_right" with
          | .error e => .error e
          | .ok r =>
            match dget t.style "top_intersect" with
            | .error e => .error e
            | .ok c => .ok (l, r, c)
      else if position = "bottom" then
        match dget t.style "bot_left" with
        | .error e => .error e
        | .ok l =>
          match dget t.style "bot_right" with
          | .error e => .error e
          | .ok r =>
            match dget t.style "bot_intersect" with
            | .error e => .error e
            | .ok c => .ok (l, r, c)
      else
        match dget t.style "mid_left" with
        | .error e => .error e
        | .ok l =>
          match dget t.style "mid_right" with
          | .error e => .error e
          | .ok r =>
            match dget t.style "mid_intersect" with
            | .error e => .error e
            | .ok c => .ok (l, r, c) : Except PyErr (Str × Str × Str)) with
    | .error e => .error e
    | .ok (l, r, c) =>
      match dget t.style "h_line" with
      | .error e => .error e
      | .ok h =>
        .ok (l ++ (List.intercalate c
          (col_widths.map (fun w => (List.replicate (w + 2) h).flatten))) ++ r)

/-- Python's format padding `f"{part:{align}{width}}"` for the three align
codes produced by `align_map.get(align, "<")`: left for `"left"` and any
unknown tag, centring with the extra space on the right for `"center"`,
right for `"right"`.  Text longer than the width is not shortened. -/
def padCell (align : String) (width : Nat) (s : Str) : Str :=
  let pad := width - s.length
  if align = "center" then
    List.replicate (pad / 2) ' ' ++ s ++ List.replicate (pad - pad / 2) ' '
  else if align = "right" then
    List.replicate pad ' ' ++ s
  else s ++ List.replicate pad ' '

/-- The inner `format_line` of `_generate_subset`: each part is padded to
its positional width with the alignment of the original column index that
the subset slot maps to, wrapped in single spaces, and the cells are joined
and enclosed by the style's vertical glyph. -/
def format_line (t : Table) (col_indices : List Nat) (col_widths : List Nat)
    (v_line : Str) (line_parts : List Str) : Str :=
  let cells := (List.range line_parts.length).map (fun i =>
    let width := col_widths.getD i 0
    let real_idx := col_indices.getD i 0
    let align := (t.columns.getD real_idx default).align
    [' '] ++ padCell align width (line_parts.getD i []) ++ [' '])
  v_line ++ (List.intercalate v_line cells) ++ v_line

/-- The row-rendering loop of `_generate_subset`: each row's selected cells
are formatted (`process_cell`), the row height is the maximum formatted
line count, one output line is emitted per sub-line (shorter cells
contribute empty parts), and with `horizontal_lines` a middle separator
follows every row but the last. -/
def render_rows (t : Table) (col_indices : List Nat) (col_widths : List Nat)
    (v_line : Str) : List (List Str) → Except PyErr (List Str)
  | [] => .ok []
  | row :: rest =>
    let formatted := col_indices.map (fun i => process_cell t (row.getD i []) i)
    let row_height := (formatted.map List.length).foldl max 0
    let rowLines := (List.range row_height).map (fun li =>
      format_line t col_indices col_widths v_line
        (formatted.map (fun cl => cl.getD li [])))
    match (if t.horizontal_lines ∧ rest ≠ [] then
        match build_separator t col_widths "middle" with
        | .error e => .error e
        | .ok s => .ok [s]
      else .ok ([] : List Str) : Except PyErr (List Str)) with
    | .error e => .error e
    | .ok seps =>
      match render_rows t col_indices col_widths v_line rest with
      | .error e => .error e
      | .ok more => .ok (rowLines ++ seps ++ more)

/-- `TextTable._generate_subset(col_indices)`: the fallback message for an
empty subset; otherwise widths are computed per selected column, the
header line, separators, and per-row lines are assembled in order and
joined with newlines.  Any glyph `KeyError` raised along the way
propagates. -/
def generate_subset (t : Table) (col_indices : List Nat) : Except PyErr Str :=
  if col_indices.isEmpty then .ok ("No columns to display.".toList)
  else
    let col_widths := col_indices.map (colWidth t)
    match dget t.style "v_line" with
    | .error e => .error e
    | .ok v_line =>
      match (if t.style_name = "box" then
          match build_separator t col_widths "top" with
          | .error e => .error e
          | .ok s => .ok [s]
        else .ok ([] : List Str) : Except PyErr (List Str)) with
      | .error e => .error e
      | .ok top =>
        let header_names := col_indices.map (fun i =>
          (t.columns.getD i default).header)
        let headerLine := format_line t col_indices col_widths v_line header_names
        match build_separator t col_widths
            (if t.style_name = "box" then "middle" else "markdown") with
        | .error e => .error e
        | .ok sep =>
          match render_rows t col_indices col_widths v_line t.rows with
          | .error e => .error e
          | .ok body =>
            match (if t.style_name = "box" then
                match build_separator t col_widths "bottom" with
                | .error e => .error e
                | .ok s => .ok [s]
              else .ok ([] : List Str) : Except PyErr (List Str)) with
            | .error e => .error e
            | .ok bottom =>
              .ok (List.intercalate ['\n']
                (top ++ [headerLine, sep] ++ body ++ bottom))

/-- `TextTable.generate()`: the empty string for a table without columns;
otherwise `_generate_subset` over all column indices.  (The preceding width
loop inside `generate` is dead code whose result is discarded; its only
effectful part, the `self.style["v_line"]` lookup, is retained.) -/
def generate (t : Table) : Except PyErr Str :=
  if t.columns.isEmpty then .ok []
  else
    match dget t.style "v_line" with
    | .error e => .error e
    | .ok _ => generate_subset t (List.range t.columns.length)

/-- The estimated display cost of column `i` in the viewer:
`max(len(header), 15) + 3`. -/
def estWidth (cols : List Column) (i : Nat) : Int :=
  max ((cols.getD i default).header.length : Int) 15 + 3

/-- The greedy accumulation loop of `TextTable.view` step 3: starting from
`used`, indices are taken in order while `used + est < term_width`,
stopping at the first column that does not fit. -/
def visibleFrom (cols : List Column) (tw : Int) : List Nat → Int → List Nat
  | [], _ => []
  | i :: is, used =>
    let est := estWidth cols i
    if used + est < tw then i :: visibleFrom cols tw is (used + est) else []

/-- The visible-column window computed each frame of `TextTable.view`:
the greedy window starting at `start` with the border budget `4`, forced to
the single column `[start]` when nothing fit and columns remain. -/
def computeVisible (cols : List Column) (start : Nat) (tw : Int) : List Nat :=
  let temp := visibleFrom cols tw (List.range' start (cols.length - start)) 4
  if temp.isEmpty ∧ start < cols.length then [start] else temp

/-- The navigation keys the viewer reacts to (`'q'`, right, left, anything
else). -/
inductive Key where
  | quit
  | right
  | left
  | other
deriving DecidableEq, Repr

/-- One key transition of the viewer loop on `start_col`: right advances by
one only while `start_col + |visible| < total`, left retreats by one only
while `0 < start_col`, and any other key (including quit, which exits)
leaves the state unchanged. -/
def viewStep (cols : List Column) (tw : Int) (start : Nat) (k : Key) : Nat :=
  let vis := computeVisible cols start tw
  match k with
  | .right => if start + vis.length < cols.length then start + 1 else start
  | .left => if 0 < start then start - 1 else start
  | _ => start

/-- The `start_col` values reachable in the viewer loop: `0` initially, and
closed under one key transition at any terminal width. -/
inductive ReachableStart (cols : List Column) : Nat → Prop where
  | init : ReachableStart cols 0
  | step (s : Nat) (h : ReachableStart cols s) (tw : Int) (k : Key) :
      ReachableStart cols (viewStep cols tw s k)

/-- Example table whose single column truncates at a parametric width. -/
def truncTable (m : Nat) : Table :=
  add_column (TextTable false "markdown") ['A'] "left" (some m) "truncate"

/-- Example table whose single column wraps at a parametric width. -/
def wrapTable (m : Nat) : Table :=
  add_column (TextTable false "markdown") ['W'] "left" (some m) "wrap"

/-- Example table with a single column, used by concrete witnesses. -/
def exTable1 : Table :=
  add_column (TextTable false "markdown") ['A'] "left" none "truncate"

/-- Example table whose single column holds a numeric cell and a
non-numeric cell — the mixed-key scenario for `sort_by` with `key=int`. -/
def mixedTable : Table :=
  { exTable1 with rows := [[['1']], [['x']]] }

/-- Example table with two distinct string cells, for the sort-reversal
witness. -/
def twoRowTable : Table :=
  { exTable1 with rows := [[['b']], [['a']]] }

end ConsoleTable

namespace ConsoleTable

theorem add_row_columns (t : Table) (args : List PyVal) :
    (add_row t args).1.columns = t.columns := by
  unfold add_row
  split <;> rfl

/-- Claim C7: `add_row` with an argument count different from the column
count fails with an arity error (`ValueError`) and leaves the stored rows
unchanged; with matching lengths it appends one row holding the string
representation of each value. -/
theorem C7_add_row_arity (t : Table) (args : List PyVal) :
    (args.length ≠ t.columns.length →
      add_row t args = (t, some PyErr.valueError) ∧
      (add_row t args).1.rows.length = t.rows.length) ∧
    (args.length = t.columns.length →
      add_row t args = ({ t with rows := t.rows ++ [args.map pyValStr] }, none)) := by
  constructor
  · intro h
    constructor
    · unfold add_row
      rw [if_pos h]
    · unfold add_row
      rw [if_pos h]
  · intro h
    unfold add_row
    rw [if_neg (by omega)]

/-- Witness for C7 at a concrete table and argument list. -/
theorem C7_witness :
    ([] : List PyVal).length ≠ exTable1.columns.length ∧
    add_row exTable1 [] = (exTable1, some PyErr.valueError) := by
  refine ⟨by decide, ?_⟩
  exact ((C7_add_row_arity exTable1 []).1 (by decide)).1

/-- Claim C8: `add_rows` inserts rows in order and stops at the first
element whose arity mismatches the column count: every earlier row is
inserted (not rolled back), the failing element and all later elements are
not, and the call reports the arity error. -/
theorem C8_add_rows_first_failure (t : Table) (rs : List (List PyVal)) (k : Nat)
    (hk : k < rs.length)
    (hbad : (rs.getD k []).length ≠ t.columns.length)
    (hgood : ∀ j, j < k → (rs.getD j []).length = t.columns.length) :
    add_rows t rs =
      ({ t with rows := t.rows ++ (rs.take k).map (fun r => r.map pyValStr) },
       some PyErr.valueError) := by
  induction k generalizing t rs with
  | zero =>
    cases rs with
    | nil => simp at hk
    | cons r rs' =>
      simp only [List.getD_cons_zero] at hbad
      unfold add_rows add_row
      rw [if_pos hbad]
      simp
  | succ k ih =>
    cases rs with
    | nil => simp at hk
    | cons r rs' =>
      have hr : r.length = t.columns.length := by
        have := hgood 0 (Nat.succ_pos k)
        simpa using this
      unfold add_rows
      rw [show add_row t r = ({ t with rows := t.rows ++ [r.map pyValStr] }, none) from by
        unfold add_row; rw [if_neg (by omega)]]
      have hys := ih { t with rows := t.rows ++ [r.map pyValStr] } rs'
        (by simpa using hk)
        (by simpa using hbad)
        (by
          intro j hj
          have := hgood (j + 1) (by omega)
          simpa using this)
      simp only [hys, List.take_succ_cons, List.map_cons]
      congr 1
      simp

theorem strLt_cons (x y : Char) (xs ys : Str) :
    strLt (x :: xs) (y :: ys) =
      if x < y then true else if y < x then false else strLt xs ys := rfl

theorem strLt_asymm : ∀ {a b : Str}, strLt a b = true → strLt b a = true → False
  | [], [], h, _ => by simp [strLt] at h
  | [], _ :: _, _, h2 => by simp [strLt] at h2
  | _ :: _, [], h, _ => by simp [strLt] at h
  | x :: xs, y :: ys, h, h2 => by
    rcases lt_trichotomy x y with hlt | heq | hgt
    · rw [strLt_cons, if_neg (lt_asymm hlt), if_pos hlt] at h2
      cases h2
    · subst heq
      rw [strLt_cons, if_neg (lt_irrefl x), if_neg (lt_irrefl x)] at h h2
      exact strLt_asymm h h2
    · rw [strLt_cons, if_neg (lt_asymm hgt), if_pos hgt] at h
      cases h

theorem strLt_total_of_ne :
    ∀ {a b : Str}, strLt a b = false → a ≠ b → strLt b a = true
  | [], [], _, hne => absurd rfl hne
  | [], _ :: _, h, _ => by simp [strLt] at h
  | _ :: _, [], _, _ => by simp [strLt]
  | x :: xs, y :: ys, h, hne => by
    rcases lt_trichotomy x y with hlt | heq | hgt
    · rw [strLt_cons, if_pos hlt] at h
      cases h
    · subst heq
      rw [strLt_cons, if_neg (lt_irrefl x), if_neg (lt_irrefl x)] at h
      rw [strLt_cons, if_neg (lt_irrefl x), if_neg (lt_irrefl x)]
      exact strLt_total_of_ne h (fun he => hne (by rw [he]))
    · rw [strLt_cons, if_pos hgt]

theorem strLt_trans : ∀ {a b c : Str},
    strLt a b = true → strLt b c = true → strLt a c = true
  | [], [], _, h1, _ => by simp [strLt] at h1
  | _ :: _, [], _, h1, _ => by simp [strLt] at h1
  | _, _ :: _, [], _, h2 => by simp [strLt] at h2
  | [], _ :: _, _ :: _, _, _ => by simp [strLt]
  | x :: xs, y :: ys, z :: zs, h1, h2 => by
    rcases lt_trichotomy x y with hlt | heq | hgt
    · rcases lt_trichotomy y z with hlt2 | heq2 | hgt2
      · rw [strLt_cons, if_pos (lt_trans hlt hlt2)]
      · subst heq2
        rw [strLt_cons, if_pos hlt]
      · rw [strLt_cons, if_neg (lt_asymm hgt2), if_pos hgt2] at h2
        cases h2
    · subst heq
      rcases lt_trichotomy x z with hlt2 | heq2 | hgt2
      · rw [strLt_cons, if_pos hlt2]
      · subst heq2
        rw [strLt_cons, if_neg (lt_irrefl x), if_neg (lt_irrefl x)] at h1 h2 ⊢
        exact strLt_trans h1 h2
      · rw [strLt_cons, if_neg (lt_asymm hgt2), if_pos hgt2] at h2
        cases h2
    · rw [strLt_cons, if_neg (lt_asymm hgt), if_pos hgt] at h1
      cases h1

theorem pyLt_asymm {a b : PyVal} (h1 : pyLt a b = .ok true)
    (h2 : pyLt b a = .ok true) : False := by
  cases a with
  | int m =>
    cases b with
    | int n =>
      simp only [pyLt, Except.ok.injEq, decide_eq_true_eq] at h1 h2
      omega
    | str s => simp [pyLt] at h1
  | str s =>
    cases b with
    | int n => simp [pyLt] at h1
    | str u =>
      simp only [pyLt, Except.ok.injEq] at h1 h2
      exact strLt_asymm h1 h2

theorem pyLt_total_of_ne {a b : PyVal} (h : pyLt a b = .ok false) (hne : a ≠ b) :
    pyLt b a = .ok true := by
  cases a with
  | int m =>
    cases b with
    | int n =>
      simp only [pyLt, Except.ok.injEq, decide_eq_false_iff_not] at h ⊢
      simp only [decide_eq_true_eq]
      have : m ≠ n := fun he => hne (by rw [he])
      omega
    | str s => simp [pyLt] at h
  | str s =>
    cases b with
    | int n => simp [pyLt] at h
    | str u =>
      simp only [pyLt, Except.ok.injEq] at h ⊢
      exact strLt_total_of_ne h (fun he => hne (by rw [he]))

theorem pyLt_trans {a b c : PyVal} (h1 : pyLt a b = .ok true)
    (h2 : pyLt b c = .ok true) : pyLt a c = .ok true := by
  cases a with
  | int m =>
    cases b with
    | int n =>
      cases c with
      | int p =>
        simp only [pyLt, Except.ok.injEq, decide_eq_true_eq] at h1 h2 ⊢
        omega
      | str u => simp [pyLt] at h2
    | str s => simp [pyLt] at h1
  | str s =>
    cases b with
    | int n => simp [pyLt] at h1
    | str u =>
      cases c with
      | int p => simp [pyLt] at h2
      | str v =>
        simp only [pyLt, Except.ok.injEq] at h1 h2 ⊢
        exact strLt_trans h1 h2

theorem insertE_perm {α : Type} (p : α × PyVal) :
    ∀ (l s : List (α × PyVal)), insertE p l = .ok s → s.Perm (p :: l)
  | [], s, h => by
    simp only [insertE, Except.ok.injEq] at h
    subst h
    exact List.Perm.refl _
  | q :: l, s, h => by
    simp only [insertE] at h
    split at h
    · cases h
    · cases h
      exact List.Perm.refl _
    · split at h
      · cases h
      · next r hr =>
        cases h
        exact ((insertE_perm p l r hr).cons q).trans (List.Perm.swap p q l)

theorem sortE_perm {α : Type} :
    ∀ (l s : List (α × PyVal)), sortE l = .ok s → s.Perm l
  | [], s, h => by
    simp only [sortE, Except.ok.injEq] at h
    subst h
    exact List.Perm.refl _
  | p :: l, s, h => by
    simp only [sortE] at h
    split at h
    · cases h
    · next s' hs =>
      exact (insertE_perm p s' s h).trans ((sortE_perm l s' hs).cons p)

theorem insertE_sorted {α : Type} (p : α × PyVal) :
    ∀ (l s : List (α × PyVal)), l.Sorted keyRel →
      (∀ q ∈ l, q.2 ≠ p.2) → insertE p l = .ok s → s.Sorted keyRel
  | [], s, _, _, h => by
    simp only [insertE, Except.ok.injEq] at h
    subst h
    simp
  | q :: l, s, hs, hd, h => by
    simp only [insertE] at h
    split at h
    · cases h
    · next hb =>
      cases h
      rw [List.sorted_cons]
      refine ⟨?_, hs⟩
      intro x hx
      rcases List.mem_cons.mp hx with hxq | hxl
      · subst hxq; exact hb
      · exact pyLt_trans hb ((List.sorted_cons.mp hs).1 x hxl)
    · next hb =>
      split at h
      · cases h
      · next r hr =>
        cases h
        rw [List.sorted_cons]
        constructor
        · intro x hx
          rcases List.mem_cons.mp ((insertE_perm p l r hr).mem_iff.mp hx) with hxp | hxl
          · cases hxp
            exact pyLt_total_of_ne hb (fun he =>
              hd q (List.mem_cons_self q l) he.symm)
          · exact (List.sorted_cons.mp hs).1 x hxl
        · exact insertE_sorted p l r (List.sorted_cons.mp hs).2
            (fun x hx => hd x (List.mem_cons_of_mem q hx)) hr

theorem sortE_sorted {α : Type} :
    ∀ (l s : List (α × PyVal)),
      l.Pairwise (fun a b => a.2 ≠ b.2) → sortE l = .ok s → s.Sorted keyRel
  | [], s, _, h => by
    simp only [sortE, Except.ok.injEq] at h
    subst h
    simp
  | p :: l, s, hp, h => by
    simp only [sortE] at h
    split at h
    · cases h
    · next s' hs =>
      have hps := List.pairwise_cons.mp hp
      exact insertE_sorted p s' s (sortE_sorted l s' hps.2 hs)
        (fun q hq => fun he =>
          hps.1 q ((sortE_perm l s' hs).mem_iff.mp hq) he.symm) h

/-- Claim C2 counterexample: the table's column `A` exists, the key function
is the model of `int(...)` whose `ValueError` on `"x"` is recovered into a
raw-string fallback key, yet `sort_by` does not complete: comparing the
fallback string key with the transformed int key raises a `TypeError`, which
propagates out of `sort_by`. -/
theorem C2_counterexample :
    mixedTable.columns.findIdx? (fun c => c.header == ['A']) = some 0 ∧
    sort_by mixedTable ['A'] (some pyIntKey) false = .error PyErr.typeError :=
  ⟨rfl, rfl⟩

/-- Claim C2 (amended): inside `sort_by`, a row's sort key falls back to the
raw string value exactly when the key function fails with a `ValueError`;
a failure of any other kind is not recovered and propagates. -/
theorem C2_sort_key_fallback (col_idx : Nat) (key : Str → Except PyErr PyVal)
    (row : List Str) :
    (key (row.getD col_idx []) = .error PyErr.valueError →
      sort_key col_idx (some key) row = .ok (.str (row.getD col_idx []))) ∧
    (∀ e, key (row.getD col_idx []) = .error e → e ≠ PyErr.valueError →
      sort_key col_idx (some key) row = .error e) := by
  constructor
  · intro h
    simp only [sort_key, h]
  · intro e h hne
    cases e with
    | valueError => exact absurd rfl hne
    | typeError => simp only [sort_key, h]
    | keyError => simp only [sort_key, h]

/-- Witness for C2 at a concrete failing key function and row. -/
theorem C2_witness :
    (fun _ : Str => (Except.error PyErr.valueError : Except PyErr PyVal))
        ([['x']].getD 0 []) = .error PyErr.valueError ∧
    sort_key 0 (some fun _ => .error PyErr.valueError) [['x']] = .ok (.str ['x']) :=
  ⟨rfl, (C2_sort_key_fallback 0 (fun _ => .error PyErr.valueError) [['x']]).1 rfl⟩

/-- Claim C9: when the computed sort keys of the rows are pairwise distinct,
sorting with `reverse=True` produces exactly the reverse of the row
ordering produced with `reverse=False` (whenever both calls complete). -/
theorem C9_sort_reverse (t : Table) (hname : Str)
    (key : Option (Str → Except PyErr PyVal)) (col_idx : Nat)
    (dec : List (List Str × PyVal)) (t1 t2 : Table)
    (hidx : t.columns.findIdx? (fun c => c.header == hname) = some col_idx)
    (hdec : computeKeysE col_idx key t.rows = .ok dec)
    (hdistinct : dec.Pairwise (fun a b => a.2 ≠ b.2))
    (h1 : sort_by t hname key false = .ok t1)
    (h2 : sort_by t hname key true = .ok t2) :
    t2.rows = t1.rows.reverse := by
  simp only [sort_by, hidx, hdec, Bool.false_eq_true, if_false, if_true] at h1 h2
  split at h1
  · cases h1
  · next s1 hs1 =>
    split at h2
    · cases h2
    · next s2 hs2 =>
      cases h1
      cases h2
      have hperm : s1.Perm s2 :=
        (sortE_perm dec s1 hs1).trans
          ((sortE_perm dec.reverse s2 hs2).trans dec.reverse_perm).symm
      haveI : IsAntisymm (List Str × PyVal) keyRel :=
        ⟨fun a b ha hb => (pyLt_asymm ha hb).elim⟩
      have hdistinct' : dec.reverse.Pairwise (fun a b => a.2 ≠ b.2) := by
        rw [List.pairwise_reverse]
        exact hdistinct.imp (fun h => h.symm)
      have hsorted1 : s1.Sorted keyRel := sortE_sorted dec s1 hdistinct hs1
      have hsorted2 : s2.Sorted keyRel := sortE_sorted dec.reverse s2 hdistinct' hs2
      have heq : s1 = s2 := List.eq_of_perm_of_sorted hperm hsorted1 hsorted2
      simp only [← heq, List.map_reverse]

/-- Witness for C9 on a two-row table with distinct raw string keys. -/
theorem C9_witness :
    ([([['b']], PyVal.str ['b']), ([['a']], PyVal.str ['a'])].Pairwise
      (fun a b => a.2 ≠ b.2)) ∧
    ({ twoRowTable with rows := [[['b']], [['a']]] } : Table).rows =
      ({ twoRowTable with rows := [[['a']], [['b']]] } : Table).rows.reverse :=
  ⟨by decide,
    C9_sort_reverse twoRowTable ['A'] none 0
      [([['b']], PyVal.str ['b']), ([['a']], PyVal.str ['a'])]
      { twoRowTable with rows := [[['a']], [['b']]] }
      { twoRowTable with rows := [[['b']], [['a']]] }
      rfl rfl (by decide) rfl rfl⟩

/-- Witness for C8: one good row, then a bad-arity row, then another row;
only the first row is inserted and the arity error is reported. -/
theorem C8_witness :
    (1 : Nat) < ([[PyVal.str ['a']], [], [PyVal.str ['b']]] : List (List PyVal)).length ∧
    add_rows exTable1 [[PyVal.str ['a']], [], [PyVal.str ['b']]] =
      ({ exTable1 with rows := exTable1.rows ++ [[['a']]] }, some PyErr.valueError) := by
  refine ⟨by decide, ?_⟩
  have h := C8_add_rows_first_failure exTable1 [[PyVal.str ['a']], [], [PyVal.str ['b']]] 1
    (by decide) (by decide)
    (by
      intro j hj
      interval_cases j
      decide)
  simpa using h

theorem sumLen_cons (c : Str) (l : List Str) :
    sumLen (c :: l) = c.length + sumLen l := by
  simp [sumLen]

theorem sumLen_append (l1 l2 : List Str) :
    sumLen (l1 ++ l2) = sumLen l1 + sumLen l2 := by
  simp [sumLen]

theorem sumLen_dropLast_le : ∀ l : List Str, sumLen l.dropLast ≤ sumLen l
  | [] => le_refl _
  | [a] => by simp [sumLen]
  | a :: b :: l => by
    rw [List.dropLast_cons₂, sumLen_cons, sumLen_cons]
    have := sumLen_dropLast_le (b :: l)
    omega

theorem takeLine_len_eq (width : Nat) : ∀ (cs : List Str) (curLen : Nat),
    (takeLine width curLen cs).2.1 = curLen + sumLen (takeLine width curLen cs).1 := by
  intro cs
  induction cs with
  | nil => intro curLen; simp [takeLine, sumLen]
  | cons c cs ih =>
    intro curLen
    simp only [takeLine]
    split
    · simp only [sumLen_cons]
      rw [ih (curLen + c.length)]
      omega
    · simp [sumLen]

theorem takeLine_le (width : Nat) : ∀ (cs : List Str) (curLen : Nat),
    curLen ≤ width → (takeLine width curLen cs).2.1 ≤ width := by
  intro cs
  induction cs with
  | nil => intro curLen h; simpa [takeLine]
  | cons c cs ih =>
    intro curLen h
    simp only [takeLine]
    split
    · next hfit => exact ih (curLen + c.length) hfit
    · simpa

theorem longWordAdjust_sumLen_le (width : Nat) (cur0 : List Str) (len0 : Nat)
    (rem : List Str) (hs : sumLen cur0 = len0) (hle : len0 ≤ width)
    (hw : 1 ≤ width) :
    sumLen (longWordAdjust width cur0 len0 rem).1 ≤ width := by
  cases rem with
  | nil => simpa [longWordAdjust, hs]
  | cons c cs =>
    simp only [longWordAdjust]
    split
    · rw [if_neg (by omega)]
      simp only [sumLen_append, hs, sumLen_cons]
      have hta : (c.take (width - len0)).length ≤ width - len0 := by
        simp [List.length_take]
      simp only [sumLen]
      simp only [List.map_nil, List.sum_nil]
      omega
    · simpa [hs]

theorem dropTrailingBlank_sumLen_le (cur : List Str) :
    sumLen (dropTrailingBlank cur) ≤ sumLen cur := by
  unfold dropTrailingBlank
  split
  · split
    · exact sumLen_dropLast_le cur
    · exact le_refl _
  · exact le_refl _

theorem wrapLine_le (width : Nat) (chunks1 : List Str) (line : Str)
    (rest : List Str) (hw : 1 ≤ width)
    (h : wrapLine width chunks1 = (some line, rest)) :
    line.length ≤ width := by
  simp only [wrapLine] at h
  split at h
  · simp at h
  · simp only [Prod.mk.injEq, Option.some.injEq] at h
    obtain ⟨h1, _⟩ := h
    subst h1
    rw [List.length_flatten]
    have h0 := takeLine_len_eq width chunks1 0
    have h0' := takeLine_le width chunks1 0 (Nat.zero_le width)
    calc ((dropTrailingBlank (longWordAdjust width (takeLine width 0 chunks1).1
            (takeLine width 0 chunks1).2.1 (takeLine width 0 chunks1).2.2).1).map
              List.length).sum
        = sumLen (dropTrailingBlank (longWordAdjust width (takeLine width 0 chunks1).1
            (takeLine width 0 chunks1).2.1 (takeLine width 0 chunks1).2.2).1) := rfl
      _ ≤ sumLen (longWordAdjust width (takeLine width 0 chunks1).1
            (takeLine width 0 chunks1).2.1 (takeLine width 0 chunks1).2.2).1 :=
          dropTrailingBlank_sumLen_le _
      _ ≤ width :=
          longWordAdjust_sumLen_le width _ _ _ (by omega) h0' hw

theorem wrapGo_mem_le (width : Nat) (hw : 1 ≤ width) :
    ∀ (fuel : Nat) (isFirst : Bool) (chunks : List Str) (line : Str),
      line ∈ wrapGo width fuel isFirst chunks → line.length ≤ width := by
  intro fuel
  induction fuel with
  | zero =>
    intro _ _ _ h
    simp [wrapGo] at h
  | succ fuel ih =>
    intro isFirst chunks line h
    cases chunks with
    | nil => simp [wrapGo] at h
    | cons c cs =>
      simp only [wrapGo] at h
      cases hstep : wrapStep width isFirst (c :: cs) with
      | mk o rest =>
        rw [hstep] at h
        cases o with
        | some l =>
          rcases List.mem_cons.mp h with h1 | h2
          · subst h1
            exact wrapLine_le width _ line rest hw hstep
          · exact ih false rest line h2
        | none =>
          exact ih isFirst rest line h

theorem pyWrap_line_le (m : Nat) (text : Str) (line : Str) (hm : 1 ≤ m)
    (h : line ∈ pyWrap m text) : line.length ≤ m :=
  wrapGo_mem_le m hm _ _ _ _ h

theorem process_cell_wrap_eq (t : Table) (i : Nat) (m : Nat)
    (hov : (t.columns.getD i default).overflow = "wrap")
    (hmw : (t.columns.getD i default).max_width = some m)
    (hm : m ≠ 0) (text : Str) :
    process_cell t text i =
      if (pyWrap m text).isEmpty then [[]] else pyWrap m text := by
  have ht : truthy (some m) = true := by simp [truthy, hm]
  simp only [process_cell, hov, hmw, Option.getD_some, ht, Bool.true_eq_false,
    false_or]
  rw [if_neg (by decide), if_neg (by decide), if_pos trivial]

theorem process_cell_truncate_eq (t : Table) (i : Nat) (m : Nat)
    (hov : (t.columns.getD i default).overflow = "truncate")
    (hmw : (t.columns.getD i default).max_width = some m)
    (hm : m ≠ 0) (text : Str) :
    process_cell t text i =
      if m < text.length then [pyTake text ((m : Int) - 3) ++ ['.', '.', '.']]
      else [text] := by
  have ht : truthy (some m) = true := by simp [truthy, hm]
  simp only [process_cell, hov, hmw, Option.getD_some, ht, Bool.true_eq_false,
    false_or]
  rw [if_neg (by decide), if_pos trivial]

theorem process_cell_wrap_le (t : Table) (i : Nat) (text : Str) (m : Nat)
    (hov : (t.columns.getD i default).overflow = "wrap")
    (hmw : (t.columns.getD i default).max_width = some m)
    (hm : 1 ≤ m) :
    ∀ line ∈ process_cell t text i, line.length ≤ m := by
  intro line hline
  rw [process_cell_wrap_eq t i m hov hmw (by omega) text] at hline
  split at hline
  · simp only [List.mem_singleton] at hline
    subst hline
    simp
  · exact pyWrap_line_le m text line hm hline

/-- Claim C1 counterexample: for a truncate column with `maxWidth = 1`, the
two-character cell `"ab"` is rendered as `"..."` of length `3 > 1`: the
code applies Python's negative slice `text[:1-3]` without any clamp, so the
claimed bound (and the claimed clamp to `max(m-3, 0)`) fails for `m < 3`. -/
theorem C1_counterexample :
    process_cell (truncTable 1) ['a', 'b'] 0 = [['.', '.', '.']] ∧
    ¬ (∀ line ∈ process_cell (truncTable 1) ['a', 'b'] 0, line.length ≤ 1) := by
  refine ⟨rfl, ?_⟩
  decide

/-- Claim C1 (amended): for a truncate column with `maxWidth = m` where
`m ≥ 3`, every rendered cell line has length at most `m`; for `m < 3` the
code applies the unclamped negative slice and can exceed `m` (see the
counterexample), though it never crashes. -/
theorem C1_truncate_bound (t : Table) (i : Nat) (text : Str) (m : Nat)
    (hov : (t.columns.getD i default).overflow = "truncate")
    (hmw : (t.columns.getD i default).max_width = some m)
    (hm : 3 ≤ m) :
    ∀ line ∈ process_cell t text i, line.length ≤ m := by
  intro line hline
  rw [process_cell_truncate_eq t i m hov hmw (by omega) text] at hline
  split at hline
  · next hlen =>
    simp only [List.mem_singleton] at hline
    subst hline
    have h1 : ((m : Int) - 3).toNat = m - 3 := by omega
    have h2 : (pyTake text ((m : Int) - 3)).length ≤ m - 3 := by
      simp only [pyTake]
      rw [if_pos (by omega : (0 : Int) ≤ (m : Int) - 3), h1]
      simp [List.length_take]
    simp only [List.length_append]
    have h3 : (['.', '.', '.'] : Str).length = 3 := rfl
    omega
  · next hlen =>
    simp only [List.mem_singleton] at hline
    subst hline
    omega

/-- Witness for C1 at the spec's concrete scenario: `maxWidth=10`,
`"ABCDEFGHIJKLM"` becomes `"ABCDEFG..."` of length `10`. -/
theorem C1_witness :
    "ABCDEFG...".toList ∈ process_cell (truncTable 10) "ABCDEFGHIJKLM".toList 0 ∧
    ("ABCDEFG...".toList).length ≤ 10 :=
  ⟨by decide,
    C1_truncate_bound (truncTable 10) 0 "ABCDEFGHIJKLM".toList 10 rfl rfl
      (by decide) "ABCDEFG...".toList (by decide)⟩

/-- Claim C3 counterexample: wrapping `"abcd"` at limit `3` yields
`["abc", "d"]` — the long word is broken mid-word (Python `textwrap`'s
default `break_long_words=True`), not kept intact on its own overlong
line as the claim states. -/
theorem C3_counterexample :
    process_cell (wrapTable 3) ['a', 'b', 'c', 'd'] 0 = [['a', 'b', 'c'], ['d']] ∧
    process_cell (wrapTable 3) ['a', 'b', 'c', 'd'] 0 ≠ [['a', 'b', 'c', 'd']] := by
  refine ⟨rfl, ?_⟩
  decide

/-- Claim C3 (amended): wrap mode performs the greedy space-preserving word
wrap of Python `textwrap` with its default `break_long_words=True`: every
produced line has length at most the limit, a word longer than the limit
being broken into limit-sized pieces rather than kept intact. -/
theorem C3_wrap_bound (t : Table) (i : Nat) (text : Str) (m : Nat)
    (hov : (t.columns.getD i default).overflow = "wrap")
    (hmw : (t.columns.getD i default).max_width = some m)
    (hm : 1 ≤ m) :
    ∀ line ∈ process_cell t text i, line.length ≤ m :=
  process_cell_wrap_le t i text m hov hmw hm

/-- Witness for C3 at the wrapped cell `"abcd"` with limit `3`. -/
theorem C3_witness :
    ['a', 'b', 'c'] ∈ process_cell (wrapTable 3) ['a', 'b', 'c', 'd'] 0 ∧
    (['a', 'b', 'c'] : Str).length ≤ 3 :=
  ⟨by decide,
    C3_wrap_bound (wrapTable 3) 0 ['a', 'b', 'c', 'd'] 3 rfl rfl (by decide)
      ['a', 'b', 'c'] (by decide)⟩

theorem foldl_max_eq {β : Type} (f : β → Nat) :
    ∀ (l : List β) (a : Nat),
      l.foldl (fun cur x => if cur < f x then f x else cur) a =
        max a ((l.map f).foldr max 0)
  | [], a => by simp
  | x :: l, a => by
    simp only [List.foldl_cons, List.map_cons, List.foldr_cons]
    rw [foldl_max_eq f l]
    have hmax : (if a < f x then f x else a) = max a (f x) := by
      split <;> omega
    rw [hmax, Nat.max_assoc]

/-- Claim C4: the width computed per selected column equals the
specification's formula — `max(header, maxWidth)` for a wrap column with a
set (truthy) `maxWidth`, and otherwise the maximum of the header length and
all (possibly truncate-clamped) cell lengths — one width per subset index,
in the given order. -/
theorem C4_widths (t : Table) (col_indices : List Nat) :
    (∀ c, colWidth t c = widthSpec t c) ∧
    col_indices.map (colWidth t) = col_indices.map (widthSpec t) := by
  have hpt : ∀ c, colWidth t c = widthSpec t c := by
    intro c
    simp only [colWidth, widthSpec]
    split
    · rfl
    · exact foldl_max_eq (cellLenClamped (t.columns.getD c default) c) t.rows _
  exact ⟨hpt, List.map_congr_left (fun c _ => hpt c)⟩

/-- Claim C5: for a wrap column with truthy `maxWidth = m`, every line of
every formatted cell has length at most `m`, the computed column width is
`max(header length, m)`, and wrapping the empty cell yields `[""]`, never
an empty sequence. -/
theorem C5_wrap_column (t : Table) (i : Nat) (m : Nat)
    (hov : (t.columns.getD i default).overflow = "wrap")
    (hmw : (t.columns.getD i default).max_width = some m)
    (hm : 1 ≤ m) :
    (∀ text line, line ∈ process_cell t text i → line.length ≤ m) ∧
    colWidth t i = max (t.columns.getD i default).header.length m ∧
    process_cell t [] i = [[]] := by
  refine ⟨fun text line h => process_cell_wrap_le t i text m hov hmw hm line h, ?_, ?_⟩
  · simp only [colWidth, hov, hmw, Option.getD_some]
    rw [if_pos ⟨trivial, by simp [truthy]; omega⟩]
  · rw [process_cell_wrap_eq t i m hov hmw (by omega) []]
    rfl

/-- Witness for C5 at a concrete wrap column of width 4 and the empty cell. -/
theorem C5_witness :
    (1 : Nat) ≤ 4 ∧ process_cell (wrapTable 4) [] 0 = [[]] :=
  ⟨by decide, (C5_wrap_column (wrapTable 4) 0 4 rfl rfl (by decide)).2.2⟩

theorem visibleFrom_length_le (cols : List Column) (tw : Int) :
    ∀ (idxs : List Nat) (used : Int),
      (visibleFrom cols tw idxs used).length ≤ idxs.length := by
  intro idxs
  induction idxs with
  | nil => intro used; simp [visibleFrom]
  | cons i is ih =>
    intro used
    simp only [visibleFrom]
    split
    · simpa using ih _
    · simp

theorem computeVisible_length_le (cols : List Column) (start : Nat) (tw : Int)
    (h : start < cols.length) :
    (computeVisible cols start tw).length ≤ cols.length - start := by
  simp only [computeVisible]
  split
  · simp only [List.length_singleton]
    omega
  · calc (visibleFrom cols tw (List.range' start (cols.length - start)) 4).length
        ≤ (List.range' start (cols.length - start)).length :=
          visibleFrom_length_le cols tw _ 4
      _ = cols.length - start := by simp

theorem computeVisible_ne_nil (cols : List Column) (start : Nat) (tw : Int)
    (h : start < cols.length) : computeVisible cols start tw ≠ [] := by
  simp only [computeVisible]
  split
  · simp
  · next hcond =>
    intro he
    exact hcond ⟨by simp [he], h⟩

theorem viewStep_lt (cols : List Column) (tw : Int) (start : Nat) (k : Key)
    (h : start < cols.length) : viewStep cols tw start k < cols.length := by
  cases k with
  | right =>
    simp only [viewStep]
    split
    · next hlt =>
      have h1 : computeVisible cols start tw ≠ [] :=
        computeVisible_ne_nil cols start tw h
      have h2 : 1 ≤ (computeVisible cols start tw).length :=
        List.length_pos.mpr h1
      omega
    · exact h
  | left =>
    simp only [viewStep]
    split <;> omega
  | quit => simpa [viewStep] using h
  | other => simpa [viewStep] using h

theorem reachable_lt (cols : List Column) (hc : cols ≠ []) :
    ∀ s, ReachableStart cols s → s < cols.length := by
  intro s h
  induction h with
  | init => exact List.length_pos.mpr hc
  | step s' h' tw k ih => exact viewStep_lt cols tw s' k ih

/-- Claim C6: in every reachable viewer state of a table with at least one
column, the visible-column window is non-empty at every terminal width
(one column is forced in when none fits), `startColumn + |visible|` never
exceeds the column count, and the key transitions move right only while
`startColumn + |visible| < totalColumns` and left only while
`startColumn > 0`. -/
theorem C6_viewer_invariant (cols : List Column) (hc : cols ≠ []) (s : Nat)
    (hr : ReachableStart cols s) (tw : Int) :
    computeVisible cols s tw ≠ [] ∧
    s + (computeVisible cols s tw).length ≤ cols.length ∧
    (viewStep cols tw s .right ≠ s →
      s + (computeVisible cols s tw).length < cols.length) ∧
    (viewStep cols tw s .left ≠ s → 0 < s) := by
  have hs := reachable_lt cols hc s hr
  refine ⟨computeVisible_ne_nil cols s tw hs, ?_, ?_, ?_⟩
  · have := computeVisible_length_le cols s tw hs
    omega
  · intro hne
    simp only [viewStep] at hne
    by_contra hge
    rw [if_neg hge] at hne
    exact hne rfl
  · intro hne
    simp only [viewStep] at hne
    by_contra hz
    rw [if_neg hz] at hne
    exact hne rfl

/-- Witness for C6: the initial state of the one-column example table, at
terminal width 80, has a non-empty window. -/
theorem C6_witness :
    exTable1.columns ≠ [] ∧ computeVisible exTable1.columns 0 80 ≠ [] :=
  ⟨by decide,
    (C6_viewer_invariant exTable1.columns (by decide) 0 ReachableStart.init 80).1⟩

theorem build_separator_markdown_glyphs_not_markdown_name (t : Table)
    (ws : List Nat) (hstyle : t.style = markdownStyle)
    (hmname : t.style_name ≠ "markdown") :
    build_separator t ws "markdown" = .error PyErr.keyError := by
  simp only [build_separator, hstyle]
  rw [if_neg hmname]
  rfl

theorem generate_subset_unknown_style (t : Table) (idxs : List Nat)
    (hstyle : t.style = markdownStyle) (hmname : t.style_name ≠ "markdown")
    (hbname : t.style_name ≠ "box") (hne : idxs.isEmpty = false) :
    generate_subset t idxs = .error PyErr.keyError := by
  simp only [generate_subset, hstyle, hne, Bool.false_eq_true, if_false]
  rw [show dget markdownStyle "v_line" = .ok ['|'] from rfl]
  rw [if_neg hbname]
  rw [if_neg hbname]
  rw [build_separator_markdown_glyphs_not_markdown_name t _ hstyle hmname]

/-- Claim C10: for any style argument other than `"markdown"` or `"box"`
(for example `"plain"`), the constructor keeps the raw style name but
silently substitutes the markdown glyph dictionary, and any later
`generate()` on a table with at least one column takes the box-style
separator branch and fails with a missing-glyph `KeyError` instead of
rendering — reachable straight from the public constructor. -/
theorem C10_unknown_style (name : String) (hm : name ≠ "markdown")
    (hb : name ≠ "box") (hl : Bool) (t : Table)
    (hstyle : t.style = markdownStyle) (hname : t.style_name = name)
    (hcols : t.columns ≠ []) :
    (TextTable hl name).style = markdownStyle ∧
    (TextTable hl name).style_name = name ∧
    generate t = .error PyErr.keyError := by
  have h1 : (name == "markdown") = false := beq_eq_false_iff_ne.mpr hm
  have h2 : (name == "box") = false := beq_eq_false_iff_ne.mpr hb
  refine ⟨by simp [TextTable, STYLES, List.lookup, h1, h2], rfl, ?_⟩
  have hcl : t.columns.isEmpty = false := by
    simp [List.isEmpty_eq_false, hcols]
  have hrange : (List.range t.columns.length).isEmpty = false := by
    simp only [List.isEmpty_eq_false, ne_eq, List.range_eq_nil]
    intro h
    exact hcols (List.length_eq_zero.mp h)
  simp only [generate, hcl, Bool.false_eq_true, if_false, hstyle]
  rw [show dget markdownStyle "v_line" = .ok ['|'] from rfl]
  exact generate_subset_unknown_style t _ hstyle (hname ▸ hm) (hname ▸ hb) hrange

/-- Witness for C10 at the style name `"plain"` on a one-column table. -/
theorem C10_witness :
    ("plain" : String) ≠ "markdown" ∧
    generate (add_column (TextTable false "plain") ['A'] "left" none "truncate") =
      .error PyErr.keyError :=
  ⟨by decide,
    (C10_unknown_style "plain" (by decide) (by decide) false
      (add_column (TextTable false "plain") ['A'] "left" none "truncate")
      rfl rfl (by decide)).2.2⟩

end ConsoleTable
